import Mathlib

/-!
Shallow embedding of the VFS core of the `os` kernel repository
(`src/fs/vfs.rs`, `src/fs/ramdisk.rs`, `src/fs/dev/mod.rs`,
`src/fs/dev/zeronull.rs`, `src/fs/mount.rs`).

Modelling conventions:
* Shared `Arc<LockedRamdiskINode>` handles are modelled as numeric inode ids
  into a global id → node store (the ids are globally unique in the source,
  allocated by the `next_inode` atomic counter, here the `nextInode` field).
* `BTreeMap` fields (`children`, the DevFS registry, `mountpoints`) are
  modelled as association lists kept sorted by key on insertion, matching
  the map's iteration order.
* A store lookup of an id that is not present models a dangling `Arc`,
  which cannot occur in the Rust program; the total getter returns a junk
  node and theorems carry a well-formedness hypothesis where it matters.
* Operations that in Rust mutate through `&self` are state-passing
  functions `World → … → Except FsError World` (errors happen before any
  mutation in every operation except `move_`, which returns its final
  state separately because its rollback mutates before reporting).
-/

set_option maxRecDepth 100000

deriving instance DecidableEq for Except

namespace OsVfs

/-- `FsError` from `src/fs/vfs.rs`. -/
inductive FsError where
  | Unsupported
  | NotFile
  | NotDirectory
  | IsDirectory
  | EntryNotFound
  | EntryExists
  | NotSameFileSystem
  | DirectoryNotEmpty
  | Busy
  deriving DecidableEq, Repr

/-- `Timespec` from `src/fs/vfs.rs`. -/
structure Timespec where
  sec : Int
  nanosec : Int
  deriving DecidableEq, Repr

/-- `FileType` from `src/fs/vfs.rs`. -/
inductive FileType where
  | File
  | Directory
  | SymbolicLink
  | CharDevice
  deriving DecidableEq, Repr

/-- `INodeMetadata` from `src/fs/vfs.rs`. -/
structure INodeMetadata where
  inode : Nat
  size : Nat
  access_time : Timespec
  modification_time : Timespec
  change_time : Timespec
  type_ : FileType
  permissions : Nat
  links : Nat
  uid : Nat
  gid : Nat
  deriving DecidableEq, Repr

def zeroTime : Timespec := { sec := 0, nanosec := 0 }

/-- `RamdiskINode` from `src/fs/ramdisk.rs`.  `parent_ref`/`self_ref` weak
pointers become inode ids; `children : BTreeMap<String, Arc<…>>` becomes a
sorted association list of names to inode ids; `filesystem : Weak<Ramdisk>`
becomes the id of the owning ramdisk's root inode (which identifies that
`Ramdisk` instance, since `Ramdisk::root` returns exactly that node). -/
structure RamdiskINode where
  parent_ref : Nat
  children : List (String × Nat)
  metadata : INodeMetadata
  content : List Nat
  filesystem : Nat
  deriving DecidableEq, Repr

/-- A junk node standing for a dangling weak/`Arc` reference (unreachable in
the Rust program; see module docstring). -/
def junkNode : RamdiskINode :=
  { parent_ref := 0
    children := []
    metadata :=
      { inode := 0, size := 0, access_time := zeroTime,
        modification_time := zeroTime, change_time := zeroTime,
        type_ := FileType.File, permissions := 0, links := 0,
        uid := 0, gid := 0 }
    content := []
    filesystem := 0 }

/-- References to a `dyn INode` object: a ramdisk node (by id), the DevFS
root (`DevFSRootINode`), or a `ZeroNullDevice` (with its `null` flag). -/
inductive UInode where
  | ram (id : Nat)
  | devRoot
  | zeroNull (null : Bool)
  deriving DecidableEq, Repr

/-- Reference to a `dyn FileSystem`: a `Ramdisk` (identified by its root
inode id) or the `DevFS` instance. -/
inductive FsRef where
  | ramFs (rootId : Nat)
  | devFs
  deriving DecidableEq, Repr

/-- `MountedNode` from `src/fs/mount.rs`: the wrapped inner inode and the
id of the owning `MountFS` instance (`self_ref` is the node itself). -/
structure MountedNode where
  inode : UInode
  fs : Nat
  deriving DecidableEq, Repr

/-- One `MountFS` instance from `src/fs/mount.rs`: the wrapped inner
filesystem, the mount-point map (inner inode id → mounted `MountFS` id),
and the node this `MountFS` is itself mounted under. -/
structure MountFSRec where
  inner : FsRef
  mountpoints : List (Nat × Nat)
  self_mountpoint : Option MountedNode
  deriving DecidableEq, Repr

def junkMount : MountFSRec :=
  { inner := FsRef.ramFs 0, mountpoints := [], self_mountpoint := none }

/-- The global state: every ramdisk node of every `Ramdisk` instance (keyed
by inode id, allocated by the `next_inode` counter), the DevFS registry
(`devices` map of `DevFS`), and every `MountFS` instance. -/
structure World where
  nodes : List (Nat × RamdiskINode)
  nextInode : Nat
  devices : List (String × UInode)
  mounts : List (Nat × MountFSRec)
  nextMount : Nat
  deriving DecidableEq, Repr

/-- Lexicographic order on character code points — the iteration order of
`BTreeMap<String, _>` (for valid UTF-8, byte order and code-point order
agree). -/
def charsLt : List Char → List Char → Bool
  | [], [] => false
  | [], _ :: _ => true
  | _ :: _, [] => false
  | a :: as, b :: bs =>
    if a.toNat < b.toNat then true
    else if b.toNat < a.toNat then false
    else charsLt as bs

def strLt (a b : String) : Bool := charsLt a.data b.data

/-- Insert into a sorted association list, replacing an existing binding
(the behaviour of `BTreeMap::insert`). -/
def mapInsert {α : Type} (k : String) (v : α) : List (String × α) → List (String × α)
  | [] => [(k, v)]
  | (k', v') :: rest =>
    if strLt k k' then (k, v) :: (k', v') :: rest
    else if k = k' then (k, v) :: rest
    else (k', v') :: mapInsert k v rest

/-- Remove a binding from an association list (`BTreeMap::remove`). -/
def mapRemove {α : Type} (k : String) : List (String × α) → List (String × α)
  | [] => []
  | (k', v') :: rest => if k = k' then rest else (k', v') :: mapRemove k rest

/-- Total getter for the node store (see `junkNode`). -/
def getNode (w : World) (id : Nat) : RamdiskINode :=
  (w.nodes.lookup id).getD junkNode

/-- Replace (or add) the node stored under `id`. -/
def setNode (w : World) (id : Nat) (n : RamdiskINode) : World :=
  { w with nodes := (id, n) :: w.nodes.filter (fun p => p.1 ≠ id) }

def getMount (w : World) (id : Nat) : MountFSRec :=
  (w.mounts.lookup id).getD junkMount

def setMount (w : World) (id : Nat) (m : MountFSRec) : World :=
  { w with mounts := (id, m) :: w.mounts.filter (fun p => p.1 ≠ id) }

namespace Ramdisk

/-- `LockedRamdiskINode::read_at`: error on directories, clamp the copied
range to the content length, copy into the front of `buf` and return the
number of bytes read together with the updated buffer. -/
def read_at (w : World) (id : Nat) (offset : Nat) (buf : List Nat) :
    Except FsError (Nat × List Nat) :=
  let file := getNode w id
  if file.metadata.type_ = FileType.Directory then .error .IsDirectory
  else
    let start := min file.content.length offset
    let stop := min file.content.length (offset + buf.length)
    let src := (file.content.take stop).drop start
    .ok (src.length, src ++ buf.drop src.length)

/-- `LockedRamdiskINode::write_at`: error on directories, zero-extend the
content if `offset + buf.len()` exceeds it, then overwrite the range. -/
def write_at (w : World) (id : Nat) (offset : Nat) (buf : List Nat) :
    Except FsError (Nat × World) :=
  let file := getNode w id
  if file.metadata.type_ = FileType.Directory then .error .IsDirectory
  else
    let grown :=
      if file.content.length < offset + buf.length then
        file.content ++ List.replicate (offset + buf.length - file.content.length) 0
      else file.content
    let content := (grown.take offset) ++ buf ++ grown.drop (offset + buf.length)
    .ok (buf.length, setNode w id { file with content := content })

/-- `LockedRamdiskINode::metadata`: the stored metadata with `size`
overridden by the current content length.  (Always `Ok` in the source.) -/
def metadata (w : World) (id : Nat) : INodeMetadata :=
  let file := getNode w id
  { file.metadata with size := file.content.length }

/-- `LockedRamdiskINode::resize`: `NotFile` unless the node is a plain
file, otherwise `Vec::resize(new_len, 0)` on the content. -/
def resize (w : World) (id : Nat) (new_len : Nat) : Except FsError World :=
  let file := getNode w id
  if file.metadata.type_ ≠ FileType.File then .error .NotFile
  else
    let content := file.content.take new_len ++
      List.replicate (new_len - file.content.length) 0
    .ok (setNode w id { file with content := content })

/-- `LockedRamdiskINode::create`: `NotDirectory` unless `self` is a
directory; allocates a fresh inode id, builds the child (permissions
truncated by the `as u16` cast) and inserts it into the name map,
replacing any existing binding.  Returns the new node's id. -/
def create (w : World) (id : Nat) (name : String) (type_ : FileType)
    (permissions : Nat) : Except FsError (Nat × World) :=
  let file := getNode w id
  if file.metadata.type_ ≠ FileType.Directory then .error .NotDirectory
  else
    let newId := w.nextInode
    let newNode : RamdiskINode :=
      { parent_ref := id
        children := []
        metadata :=
          { inode := newId, size := 0, access_time := zeroTime,
            modification_time := zeroTime, change_time := zeroTime,
            type_ := type_, permissions := permissions % 65536, links := 1,
            uid := 0, gid := 0 }
        content := []
        filesystem := file.filesystem }
    let w := { w with nextInode := w.nextInode + 1 }
    let w := setNode w newId newNode
    let w := setNode w id { file with children := mapInsert name newId file.children }
    .ok (newId, w)

/-- `LockedRamdiskINode::find`: `NotDirectory` unless `self` is a
directory; `"."` is `self`, `".."` the parent, anything else a map
lookup failing with `EntryNotFound`. -/
def find (w : World) (id : Nat) (name : String) : Except FsError Nat :=
  let file := getNode w id
  if file.metadata.type_ ≠ FileType.Directory then .error .NotDirectory
  else if name = "." then .ok id
  else if name = ".." then .ok file.parent_ref
  else
    match file.children.lookup name with
    | some cid => .ok cid
    | none => .error .EntryNotFound

/-- `LockedRamdiskINode::get_entry`: `"."`/`".."` at indices 0 and 1, then
the sorted child names. -/
def get_entry (w : World) (id : Nat) (index : Nat) : Except FsError String :=
  let file := getNode w id
  if file.metadata.type_ ≠ FileType.Directory then .error .NotDirectory
  else
    match index with
    | 0 => .ok "."
    | 1 => .ok ".."
    | index =>
      match (file.children.map Prod.fst).get? (index - 2) with
      | some s => .ok s
      | none => .error .EntryNotFound

/-- `LockedRamdiskINode::link`: downcast `other` to a ramdisk node
(`NotSameFileSystem` otherwise), then reject non-directory `self`,
directory `other`, and occupied names, in that order; otherwise insert
`other` under `name` and increment its link count. -/
def link (w : World) (id : Nat) (name : String) (other : UInode) :
    Except FsError World :=
  match other with
  | .ram oid =>
    let file := getNode w id
    let otherNode := getNode w oid
    if file.metadata.type_ ≠ FileType.Directory then .error .NotDirectory
    else if otherNode.metadata.type_ = FileType.Directory then .error .IsDirectory
    else if (file.children.lookup name).isSome then .error .EntryExists
    else
      let w := setNode w id { file with children := mapInsert name oid file.children }
      let otherNode := getNode w oid
      setNode w oid
        { otherNode with metadata :=
          { otherNode.metadata with links := otherNode.metadata.links + 1 } }
      |> .ok
  | _ => .error .NotSameFileSystem

/-- `LockedRamdiskINode::unlink`: reject non-directories, the names `"."`
and `".."`, absent names, and children that still have children; otherwise
decrement the child's link count and remove the name. -/
def unlink (w : World) (id : Nat) (name : String) : Except FsError World :=
  let file := getNode w id
  if file.metadata.type_ ≠ FileType.Directory then .error .NotDirectory
  else if name = "." ∨ name = ".." then .error .DirectoryNotEmpty
  else
    match file.children.lookup name with
    | none => .error .EntryNotFound
    | some oid =>
      if (getNode w oid).children ≠ [] then .error .DirectoryNotEmpty
      else
        let otherNode := getNode w oid
        let w := setNode w oid
          { otherNode with metadata :=
            { otherNode.metadata with links := otherNode.metadata.links - 1 } }
        let file := getNode w id
        .ok (setNode w id { file with children := mapRemove name file.children })

end Ramdisk

/-- `DevFSRootINode::resize` (src/fs/dev/mod.rs): unconditionally
`Err(IsDirectory)`. -/
def DevFSRootINode.resize (_new_len : Nat) : Except FsError Unit :=
  .error .IsDirectory

/-- `DevFSRootINode::get_entry`: `"."`/`".."` at indices 0 and 1, then the
sorted registered device names. -/
def DevFSRootINode.get_entry (w : World) (index : Nat) : Except FsError String :=
  match index with
  | 0 => .ok "."
  | 1 => .ok ".."
  | i =>
    match (w.devices.map Prod.fst).get? (i - 2) with
    | some s => .ok s
    | none => .error .EntryNotFound

/-- `DevFSRootINode::metadata`: fixed inode id 1, size = number of
registered devices, always a directory. -/
def DevFSRootINode.metadata (w : World) : INodeMetadata :=
  { inode := 1, size := w.devices.length, access_time := zeroTime,
    modification_time := zeroTime, change_time := zeroTime,
    type_ := FileType.Directory, permissions := 0o666, links := 1,
    uid := 0, gid := 0 }

/-- `DevFSRootINode::find`: `"."`/`".."` give the DevFS root itself,
anything else is a registry lookup. -/
def DevFSRootINode.find (w : World) (name : String) : Except FsError UInode :=
  if name = "." ∨ name = ".." then .ok .devRoot
  else
    match w.devices.lookup name with
    | some d => .ok d
    | none => .error .EntryNotFound

/-- `ZeroNullDevice::metadata` (src/fs/dev/zeronull.rs). -/
def ZeroNullDevice.metadata : INodeMetadata :=
  { inode := 0, size := 0, access_time := zeroTime,
    modification_time := zeroTime, change_time := zeroTime,
    type_ := FileType.CharDevice, permissions := 0o666, links := 1,
    uid := 0, gid := 0 }

namespace UInode

/-- Dynamic dispatch of `INode::metadata` (never errors for these
backends). -/
def umetadata (w : World) : UInode → INodeMetadata
  | .ram id => Ramdisk.metadata w id
  | .devRoot => DevFSRootINode.metadata w
  | .zeroNull _ => ZeroNullDevice.metadata

/-- Dynamic dispatch of `INode::find`. -/
def ufind (w : World) (u : UInode) (name : String) : Except FsError UInode :=
  match u with
  | .ram id => (Ramdisk.find w id name).map .ram
  | .devRoot => DevFSRootINode.find w name
  | .zeroNull _ => .error .NotDirectory

/-- Dynamic dispatch of `INode::link` (`DevFSRootINode::link` is
`Unsupported`, `ZeroNullDevice::link` is `NotDirectory`). -/
def ulink (w : World) (u : UInode) (name : String) (other : UInode) :
    Except FsError World :=
  match u with
  | .ram id => Ramdisk.link w id name other
  | .devRoot => .error .Unsupported
  | .zeroNull _ => .error .NotDirectory

/-- Dynamic dispatch of `INode::unlink`. -/
def uunlink (w : World) (u : UInode) (name : String) : Except FsError World :=
  match u with
  | .ram id => Ramdisk.unlink w id name
  | .devRoot => .error .Unsupported
  | .zeroNull _ => .error .NotDirectory

/-- Dynamic dispatch of `INode::resize` (`ZeroNullDevice::resize` is
`Unsupported`). -/
def uresize (w : World) (u : UInode) (new_len : Nat) : Except FsError World :=
  match u with
  | .ram id => Ramdisk.resize w id new_len
  | .devRoot => (DevFSRootINode.resize new_len).map (fun _ => w)
  | .zeroNull _ => .error .Unsupported

/-- Dynamic dispatch of `INode::get_entry`. -/
def uget_entry (w : World) (u : UInode) (index : Nat) : Except FsError String :=
  match u with
  | .ram id => Ramdisk.get_entry w id index
  | .devRoot => DevFSRootINode.get_entry w index
  | .zeroNull _ => .error .NotDirectory

/-- Dynamic dispatch of `INode::filesystem().root()`: a ramdisk node's
owning `Ramdisk` hands out the stored root, the DevFS objects the DevFS
root. -/
def uroot (w : World) : UInode → UInode
  | .ram id => .ram (getNode w id).filesystem
  | .devRoot => .devRoot
  | .zeroNull _ => .devRoot

end UInode

namespace Ramdisk

/-- `LockedRamdiskINode::move_` from `src/fs/ramdisk.rs`: find the entry,
link it at the target (a dynamic `INode` call), then unlink the source; a
failure of that unlink is compensated by unlinking the new location, the
original error being surfaced unless the compensation itself fails.
Returns the outcome together with the final state (the state matters on
the rollback paths, which mutate before erroring). -/
def move_ (w : World) (id : Nat) (old_name : String) (target : UInode)
    (new_name : String) : Except FsError Unit × World :=
  match find w id old_name with
  | .error e => (.error e, w)
  | .ok fid =>
    match UInode.ulink w target new_name (.ram fid) with
    | .error e => (.error e, w)
    | .ok w1 =>
      match unlink w1 id old_name with
      | .ok w2 => (.ok (), w2)
      | .error err =>
        match UInode.uunlink w1 target new_name with
        | .ok w3 => (.error err, w3)
        | .error e2 => (.error e2, w1)

/-- `Ramdisk::new`: allocate a fresh root directory whose parent, self and
filesystem references all point to itself.  Returns the root id. -/
def new (w : World) : Nat × World :=
  let rootId := w.nextInode
  let root : RamdiskINode :=
    { parent_ref := rootId
      children := []
      metadata :=
        { inode := rootId, size := 0, access_time := zeroTime,
          modification_time := zeroTime, change_time := zeroTime,
          type_ := FileType.Directory, permissions := 0o777, links := 1,
          uid := 0, gid := 0 }
      content := []
      filesystem := rootId }
  (rootId, setNode { w with nextInode := w.nextInode + 1 } rootId root)

end Ramdisk

namespace MountFS

/-- `MountFS::new(fs)`: wrap a filesystem in a fresh top-level `MountFS`
(no mount-point map entries, no `self_mountpoint`).  Returns its id. -/
def new (w : World) (fs : FsRef) : Nat × World :=
  let fsId := w.nextMount
  (fsId, setMount { w with nextMount := w.nextMount + 1 } fsId
    { inner := fs, mountpoints := [], self_mountpoint := none })

/-- `MountFS::root`: wrap the inner filesystem's root inode. -/
def root (w : World) (fsId : Nat) : MountedNode :=
  { inode :=
      match (getMount w fsId).inner with
      | .ramFs rootId => .ram rootId
      | .devFs => .devRoot
    fs := fsId }

end MountFS

namespace MountedNode

/-- `MountedNode::mount(fs)`: `NotDirectory` unless the wrapped inode is a
directory; otherwise create a `MountFS` whose `self_mountpoint` is this
node and record it in the parent `MountFS`'s mount-point map under this
inode's id.  Returns the new `MountFS` id. -/
def mount (w : World) (n : MountedNode) (fs : FsRef) :
    Except FsError (Nat × World) :=
  if (UInode.umetadata w n.inode).type_ ≠ FileType.Directory then
    .error .NotDirectory
  else
    let newId := w.nextMount
    let w := setMount { w with nextMount := w.nextMount + 1 } newId
      { inner := fs, mountpoints := [], self_mountpoint := some n }
    let parentFs := getMount w n.fs
    let key := (UInode.umetadata w n.inode).inode
    let mp := (key, newId) :: parentFs.mountpoints.filter (fun p => p.1 ≠ key)
    let w := setMount w n.fs { parentFs with mountpoints := mp }
    .ok (newId, w)

/-- `MountedNode::overlaid_inode`: if a filesystem is mounted on this
inode's id, its root; otherwise the node itself. -/
def overlaid_inode (w : World) (n : MountedNode) : MountedNode :=
  match (getMount w n.fs).mountpoints.lookup (UInode.umetadata w n.inode).inode with
  | some subFs => MountFS.root w subFs
  | none => n

/-- `MountedNode::is_root`: does the wrapped inode's id equal the id of
its own filesystem's root inode. -/
def is_root (w : World) (n : MountedNode) : Bool :=
  (UInode.umetadata w (UInode.uroot w n.inode)).inode =
    (UInode.umetadata w n.inode).inode

/-- `MountedNode::find`: `NotDirectory` on non-directories; `"."` is self;
`".."` at a mount root climbs out through `self_mountpoint` (a recursive
`find("..")`, hence the fuel — `none` means fuel ran out, which the
source's finite mount chains never hit); `".."` elsewhere is an inner
lookup wrapped *without* overlay resolution; every other name is looked up
on the overlay-resolved node and the result overlay-resolved again. -/
def find (w : World) (n : MountedNode) (name : String) :
    Nat → Option (Except FsError MountedNode)
  | 0 => none
  | fuel + 1 =>
    if (UInode.umetadata w n.inode).type_ ≠ FileType.Directory then
      some (.error .NotDirectory)
    else if name = "." then some (.ok n)
    else if name = ".." then
      if is_root w n then
        match (getMount w n.fs).self_mountpoint with
        | some p => find w p ".." fuel
        | none => some (.ok n)
      else
        match UInode.ufind w n.inode ".." with
        | .error e => some (.error e)
        | .ok u => some (.ok { inode := u, fs := n.fs })
    else
      match UInode.ufind w (overlaid_inode w n).inode name with
      | .error e => some (.error e)
      | .ok u => some (.ok (overlaid_inode w { inode := u, fs := n.fs }))

/-- `MountedNode::unlink`: `Busy` if something is mounted on *this* node's
inode id, otherwise forwarded to the inner inode. -/
def unlink (w : World) (n : MountedNode) (name : String) :
    Except FsError World :=
  if ((getMount w n.fs).mountpoints.lookup
      (UInode.umetadata w n.inode).inode).isSome then
    .error .Busy
  else UInode.uunlink w n.inode name

/-- `MountedNode::resize`: forwarded to the inner inode. -/
def resize (w : World) (n : MountedNode) (new_len : Nat) :
    Except FsError World :=
  UInode.uresize w n.inode new_len

end MountedNode

/-- Is `b` a UTF-8 continuation byte. -/
def isCont (b : Nat) : Bool := 0x80 ≤ b && b < 0xC0

/-- `str::from_utf8` as used by `resolve_follow`: strict UTF-8 validation
and decoding (rejecting overlong encodings, surrogates and values above
U+10FFFF), `none` on invalid input. -/
def utf8Decode? : List Nat → Option (List Char)
  | [] => some []
  | b1 :: rest =>
    if b1 < 0x80 then (utf8Decode? rest).map (fun cs => Char.ofNat b1 :: cs)
    else if b1 < 0xC2 then none
    else if b1 < 0xE0 then
      match rest with
      | b2 :: rest2 =>
        if isCont b2 then
          (utf8Decode? rest2).map
            (fun cs => Char.ofNat ((b1 - 0xC0) * 64 + (b2 - 0x80)) :: cs)
        else none
      | [] => none
    else if b1 < 0xF0 then
      match rest with
      | b2 :: b3 :: rest2 =>
        let lo2 := if b1 = 0xE0 then 0xA0 else 0x80
        let hi2 := if b1 = 0xED then 0xA0 else 0xC0
        if lo2 ≤ b2 && b2 < hi2 && isCont b3 then
          (utf8Decode? rest2).map
            (fun cs =>
              Char.ofNat ((b1 - 0xE0) * 4096 + (b2 - 0x80) * 64 + (b3 - 0x80)) :: cs)
        else none
      | _ => none
    else if b1 < 0xF5 then
      match rest with
      | b2 :: b3 :: b4 :: rest2 =>
        let lo2 := if b1 = 0xF0 then 0x90 else 0x80
        let hi2 := if b1 = 0xF4 then 0x90 else 0xC0
        if lo2 ≤ b2 && b2 < hi2 && isCont b3 && isCont b4 then
          (utf8Decode? rest2).map
            (fun cs =>
              Char.ofNat ((b1 - 0xF0) * 262144 + (b2 - 0x80) * 4096 +
                (b3 - 0x80) * 64 + (b4 - 0x80)) :: cs)
        else none
      | _ => none
    else none

/-- `path_rest.find('/')` with the two slices `&path_rest[..pos]` and
`&path_rest[pos + 1..]` (whole string and empty remainder when there is
no slash). -/
def splitSlash (l : List Char) : List Char × List Char :=
  match l.findIdx? (· = '/') with
  | none => (l, [])
  | some pos => (l.take pos, l.drop (pos + 1))

/-- The `while` loop of `INode::resolve_follow` (src/fs/vfs.rs),
specialised to a ramdisk receiver (every inode met along the way is then a
ramdisk node): a leading `/` resets the position to `self.filesystem()`'s
root; otherwise the next component is looked up, and if the result is a
symbolic link while the follow budget is positive, the budget drops by
one and the link's content — read through a 256-byte buffer and decoded
as UTF-8 (failure mapped to `NotDirectory`) — replaces the consumed
component, the source appending a `'/'` exactly when the content already
ends in `'/'`, before the remainder is appended.  `none` = fuel ran out
(the fuel is a modelling artefact; the source loops unboundedly). -/
def resolveLoop (w : World) (selfId : Nat) (current : Nat)
    (path_rest : List Char) (follow_times : Nat) :
    Nat → Option (Except FsError Nat)
  | 0 => none
  | fuel + 1 =>
    if path_rest = [] then some (.ok current)
    else if (Ramdisk.metadata w current).type_ ≠ FileType.Directory then
      some (.error .NotDirectory)
    else if path_rest.head? = some '/' then
      resolveLoop w selfId ((getNode w selfId).filesystem) path_rest.tail
        follow_times fuel
    else
      let next := (splitSlash path_rest).1
      let rest := (splitSlash path_rest).2
      match Ramdisk.find w current (String.mk next) with
      | .error e => some (.error e)
      | .ok inode =>
        if (Ramdisk.metadata w inode).type_ = FileType.SymbolicLink ∧
            0 < follow_times then
          match Ramdisk.read_at w inode 0 (List.replicate 256 0) with
          | .error e => some (.error e)
          | .ok (len, buf) =>
            match utf8Decode? (buf.take len) with
            | none => some (.error .NotDirectory)
            | some content =>
              let new_path :=
                if content.getLast? = some '/' then content ++ ['/'] else content
              resolveLoop w selfId current (new_path ++ rest)
                (follow_times - 1) fuel
        else resolveLoop w selfId inode rest follow_times fuel

/-- `INode::resolve_follow` for a ramdisk receiver: normalise the start
with `find(".")`, then run the loop. -/
def resolve_follow (w : World) (selfId : Nat) (path : String)
    (follow_times : Nat) (fuel : Nat) : Option (Except FsError Nat) :=
  match Ramdisk.find w selfId "." with
  | .error e => some (.error e)
  | .ok cur => resolveLoop w selfId cur path.data follow_times fuel

/-- The collection loop of `INode::list`: `get_entry` from index `i`
upward until the first error (fuelled; the source's `for i in 0..` is
unbounded). -/
def listCollect (w : World) (u : UInode) : Nat → Nat → List String
  | _, 0 => []
  | i, fuel + 1 =>
    match UInode.uget_entry w u i with
    | .ok s => s :: listCollect w u (i + 1) fuel
    | .error _ => []

/-- `INode::list`: `NotDirectory` on non-directories, otherwise all
entries in index order. -/
def ulist (w : World) (u : UInode) (fuel : Nat) : Except FsError (List String) :=
  if (UInode.umetadata w u).type_ ≠ FileType.Directory then .error .NotDirectory
  else .ok (listCollect w u 0 fuel)

/-- `DevFS::add`: `EntryExists` on an occupied name, otherwise register the
device. -/
def DevFS.add (w : World) (name : String) (device : UInode) :
    Except FsError World :=
  if (w.devices.lookup name).isSome then .error .EntryExists
  else .ok { w with devices := mapInsert name device w.devices }

/-! ### Structural well-formedness

Invariants that every world reachable through the embedded operations
satisfies, used where the source relies on them implicitly: a stored
node's parent reference points to a stored directory (in Rust, a live
`Weak` to a directory — `create` only ever sets it to the creating
directory), and only directories carry children (`create`/`link` guard
every children-map insertion with a directory check). -/

/-- Decidable structural invariant on the node store (see section
comment). -/
def wfb (w : World) : Bool :=
  w.nodes.all (fun p =>
    (p.2.metadata.type_ = FileType.Directory || p.2.children.isEmpty) &&
    (match w.nodes.lookup p.2.parent_ref with
     | some q => q.metadata.type_ = FileType.Directory
     | none => false))

/-! ### Concrete fixtures

Worlds built through the embedded constructors, used as counterexample
and witness inputs. -/

/-- The empty initial state; inode ids start at 1 as in the source's
`next_inode` counter. -/
def w0 : World := { nodes := [], nextInode := 1, devices := [], mounts := [], nextMount := 0 }

/-- One fresh ramdisk: root directory id 1. -/
def wRd : World := (Ramdisk.new w0).2

/-- Mount fixture: ramdisk 1 (root id 1) wrapped in `MountFS` 0, an empty
subdirectory `"tmp"` (id 3) created in its root, and a second ramdisk
(root id 2) mounted at `tmp` as `MountFS` 1. -/
def wMnt : World :=
  let w1 := (Ramdisk.new w0).2
  let w2 := (Ramdisk.new w1).2
  let w3 := (MountFS.new w2 (.ramFs 1)).2
  let w4 := ((Ramdisk.create w3 1 "tmp" FileType.Directory 0o777).toOption.getD (0, w0)).2
  ((MountedNode.mount w4 ⟨.ram 3, 0⟩ (.ramFs 2)).toOption.getD (0, w0)).2

/-- The state after `R.unlink("tmp")` on the mount fixture. -/
def wMntPost : World :=
  (MountedNode.unlink wMnt ⟨.ram 1, 0⟩ "tmp").toOption.getD w0

/-- Symlink fixture for the splice bug: root 1 with a symlink `a` (id 2,
content `"b"`), a directory `b` (id 3) and a file `b/x` (id 4). -/
def wSym : World :=
  let w1 := (Ramdisk.new w0).2
  let w2 := ((Ramdisk.create w1 1 "a" FileType.SymbolicLink 0o777).toOption.getD (0, w0)).2
  let w3 := ((Ramdisk.write_at w2 2 0 [98]).toOption.getD (0, w0)).2
  let w4 := ((Ramdisk.create w3 1 "b" FileType.Directory 0o777).toOption.getD (0, w0)).2
  ((Ramdisk.create w4 3 "x" FileType.File 0o777).toOption.getD (0, w0)).2

/-- Symlink fixture for the claim's scenario: root 1 with a symlink `a`
(id 2, content `"b/c"`), a directory `b` (id 3) and a file `b/c`
(id 4). -/
def wSym2 : World :=
  let w1 := (Ramdisk.new w0).2
  let w2 := ((Ramdisk.create w1 1 "a" FileType.SymbolicLink 0o777).toOption.getD (0, w0)).2
  let w3 := ((Ramdisk.write_at w2 2 0 [98, 47, 99]).toOption.getD (0, w0)).2
  let w4 := ((Ramdisk.create w3 1 "b" FileType.Directory 0o777).toOption.getD (0, w0)).2
  ((Ramdisk.create w4 3 "c" FileType.File 0o777).toOption.getD (0, w0)).2

/-- Hard-link fixture: root 1 with one file (id 2) linked under both
`"a"` and `"b"`. -/
def wDup : World :=
  let w1 := (Ramdisk.new w0).2
  let w2 := ((Ramdisk.create w1 1 "a" FileType.File 0o777).toOption.getD (0, w0)).2
  (Ramdisk.link w2 1 "b" (.ram 2)).toOption.getD w0

/-- Overwrite fixture: root 1 with a file `f` (id 2) holding two zero
bytes. -/
def wOver : World :=
  let w1 := (Ramdisk.new w0).2
  let w2 := ((Ramdisk.create w1 1 "f" FileType.File 0o777).toOption.getD (0, w0)).2
  ((Ramdisk.write_at w2 2 0 [0, 0]).toOption.getD (0, w0)).2

/-- The state after `write_at(0, [1])` on the overwrite fixture. -/
def wOverPost : World :=
  ((Ramdisk.write_at wOver 2 0 [1]).toOption.getD (0, w0)).2

/-- Link fixture: root 1 with a file `x` (id 2) and a directory `d`
(id 3). -/
def wLink : World :=
  let w1 := (Ramdisk.new w0).2
  let w2 := ((Ramdisk.create w1 1 "x" FileType.File 0o777).toOption.getD (0, w0)).2
  ((Ramdisk.create w2 1 "d" FileType.Directory 0o777).toOption.getD (0, w0)).2

/-- Directory-move fixture: root 1 with directories `d` (id 2) and `t`
(id 3). -/
def wDirs : World :=
  let w1 := (Ramdisk.new w0).2
  let w2 := ((Ramdisk.create w1 1 "d" FileType.Directory 0o777).toOption.getD (0, w0)).2
  ((Ramdisk.create w2 1 "t" FileType.Directory 0o777).toOption.getD (0, w0)).2

/-- DevFS fixture: `null` and `zero` devices registered. -/
def wDev : World :=
  let w1 := (DevFS.add w0 "null" (.zeroNull true)).toOption.getD w0
  (DevFS.add w1 "zero" (.zeroNull false)).toOption.getD w0

/-- Combined fixture: the link fixture's ramdisk together with the DevFS
fixture's registry. -/
def wBoth : World := { wLink with devices := wDev.devices }

/-- The state after re-creating `"x"` (fresh id 4) over the link fixture. -/
def wLinkPost : World :=
  ((Ramdisk.create wLink 1 "x" FileType.File 438).toOption.getD (0, w0)).2

/-- The state after linking the file (id 2) under `"y"` on the link
fixture. -/
def wLinkY : World :=
  (Ramdisk.link wLink 1 "y" (.ram 2)).toOption.getD w0

/-!
## Theorems

First the concrete evaluations that settle the divergent claims, then the
general structural lemmas and the universally quantified theorems.
-/

/-- A successful association-list lookup comes from a list member. -/
theorem lookup_mem {κ α : Type} [BEq κ] [LawfulBEq κ] {l : List (κ × α)}
    {k : κ} {v : α} (h : l.lookup k = some v) : (k, v) ∈ l := by
  induction l with
  | nil => simp [List.lookup] at h
  | cons x xs ih =>
    obtain ⟨a, b⟩ := x
    rw [List.lookup_cons] at h
    by_cases hak : k = a
    · subst hak
      rw [beq_self_eq_true] at h
      obtain rfl : b = v := by injection h
      exact List.mem_cons_self _ _
    · rw [beq_false_of_ne hak] at h
      exact List.mem_cons_of_mem _ (ih h)

/-- Filtering away a different key does not change a lookup. -/
theorem lookup_filter_ne {α : Type} (l : List (Nat × α)) (i j : Nat)
    (h : j ≠ i) :
    (l.filter (fun p => p.1 ≠ i)).lookup j = l.lookup j := by
  induction l with
  | nil => rfl
  | cons x xs ih =>
    obtain ⟨a, b⟩ := x
    by_cases hai : a = i
    · subst hai
      have hf : ((a, b) :: xs).filter (fun p => p.1 ≠ a)
          = xs.filter (fun p => p.1 ≠ a) := by
        simp [List.filter]
      rw [hf, ih, List.lookup_cons, beq_false_of_ne h]
    · have hf : ((a, b) :: xs).filter (fun p => p.1 ≠ i)
          = (a, b) :: xs.filter (fun p => p.1 ≠ i) := by
        simp [List.filter, hai]
      rw [hf, List.lookup_cons, List.lookup_cons, ih]

/-- Reading back the node just stored. -/
theorem getNode_setNode_self (w : World) (i : Nat) (n : RamdiskINode) :
    getNode (setNode w i n) i = n := by
  simp [getNode, setNode, List.lookup_cons]

/-- Storing one node does not change any other. -/
theorem getNode_setNode_ne (w : World) (i j : Nat) (n : RamdiskINode)
    (h : j ≠ i) : getNode (setNode w i n) j = getNode w j := by
  simp only [getNode, setNode, List.lookup_cons, beq_false_of_ne h,
    lookup_filter_ne _ _ _ h]

theorem setNode_nextInode (w : World) (i : Nat) (n : RamdiskINode) :
    (setNode w i n).nextInode = w.nextInode := rfl

/-- `mapInsert` binds the inserted key. -/
theorem lookup_mapInsert_self {α : Type} (k : String) (v : α)
    (l : List (String × α)) : (mapInsert k v l).lookup k = some v := by
  induction l with
  | nil => simp [mapInsert, List.lookup_cons]
  | cons x xs ih =>
    obtain ⟨a, b⟩ := x
    rw [mapInsert]
    by_cases h1 : strLt k a
    · rw [if_pos h1]; simp [List.lookup_cons]
    · rw [if_neg h1]
      by_cases h2 : k = a
      · rw [if_pos h2]; simp [List.lookup_cons]
      · rw [if_neg h2, List.lookup_cons, beq_false_of_ne h2]
        exact ih

/-- `mapInsert` leaves other keys alone. -/
theorem lookup_mapInsert_ne {α : Type} (k k' : String) (v : α)
    (l : List (String × α)) (h : k' ≠ k) :
    (mapInsert k v l).lookup k' = l.lookup k' := by
  induction l with
  | nil => simp [mapInsert, List.lookup_cons, List.lookup, beq_false_of_ne h]
  | cons x xs ih =>
    obtain ⟨a, b⟩ := x
    rw [mapInsert]
    by_cases h1 : strLt k a
    · rw [if_pos h1, List.lookup_cons, beq_false_of_ne h]
    · rw [if_neg h1]
      by_cases h2 : k = a
      · subst h2
        rw [if_pos rfl, List.lookup_cons, beq_false_of_ne h,
          List.lookup_cons, beq_false_of_ne h]
      · rw [if_neg h2, List.lookup_cons, List.lookup_cons, ih]

/-- Unpacking `wfb`: every stored node is childless unless it is a
directory, and its parent reference leads to a stored directory. -/
theorem wfb_spec {w : World} (h : wfb w = true) {id : Nat} {n : RamdiskINode}
    (hl : w.nodes.lookup id = some n) :
    (n.metadata.type_ = FileType.Directory ∨ n.children = []) ∧
    ∃ p, w.nodes.lookup n.parent_ref = some p ∧
      p.metadata.type_ = FileType.Directory := by
  have hm := lookup_mem hl
  have hall := List.all_eq_true.mp h _ hm
  rw [Bool.and_eq_true] at hall
  obtain ⟨h1, h2⟩ := hall
  constructor
  · rw [Bool.or_eq_true] at h1
    rcases h1 with h1 | h1
    · exact Or.inl (by simpa using h1)
    · exact Or.inr (by simpa [List.isEmpty_iff] using h1)
  · rcases hp : w.nodes.lookup n.parent_ref with _ | p
    · rw [hp] at h2; cases h2
    · rw [hp] at h2
      exact ⟨p, rfl, by simpa using h2⟩

/-- C1: the claim (and the spec) require `R.unlink("tmp")` to fail with
`Busy` while a filesystem is mounted at `R/tmp`; the code's busy-guard
checks whether something is mounted on `R` itself rather than on the
entry being unlinked, so on the mount fixture the unlink succeeds, the
entry disappears, and the mount is silently detached (its record is left
orphaned in the mount-point map).  The conjuncts: `tmp` exists under the
root, `MountFS` 1 is mounted on its id, the unlink returns `Ok`, the
entry is gone afterwards, and the mount-point record still dangles. -/
theorem unlink_detaches_mounted_directory :
    Ramdisk.find wMnt 1 "tmp" = .ok 3 ∧
    (getMount wMnt 0).mountpoints.lookup 3 = some 1 ∧
    MountedNode.unlink wMnt ⟨.ram 1, 0⟩ "tmp" = .ok wMntPost ∧
    Ramdisk.find wMntPost 1 "tmp" = .error .EntryNotFound ∧
    (getMount wMntPost 0).mountpoints.lookup 3 = some 1 := by
  decide

/-- C2: the splice step of `resolve_follow` appends the separating slash
exactly when the link content already ends in `'/'` — the inverse of the
claimed (and clearly intended) condition.  On `wSym`, where `/a` is a
symlink with content `"b"` and `/b/x` exists, resolving `/a/x` concatenates
`"b"` and `"x"` into the single component `"bx"` and fails with
`EntryNotFound`, while the intended spliced path `/b/x` resolves to the
file (id 4).  The remaining conjuncts check the parts of the claim the
code does satisfy: with content `"b/c"` (no trailing slash, empty
remainder) resolving `/a` with budget 1 equals resolving `/b/c` directly,
and budget 0 returns the symlink object itself. -/
theorem resolve_follow_splice_divergence :
    (getNode wSym 2).metadata.type_ = FileType.SymbolicLink ∧
    (getNode wSym 2).content = [98] ∧
    resolve_follow wSym 1 "/a/x" 1 40 = some (.error .EntryNotFound) ∧
    resolve_follow wSym 1 "/b/x" 1 40 = some (.ok 4) ∧
    resolve_follow wSym2 1 "/a" 1 40 = some (.ok 4) ∧
    resolve_follow wSym2 1 "/b/c" 1 40 = some (.ok 4) ∧
    resolve_follow wSym2 1 "/a" 0 40 = some (.ok 2) := by
  decide

/-- C3, counterexample: `DevFSRootINode::resize` fails with `IsDirectory`,
not with `NotFile` as the claim states (directly and through a
`MountedNode` wrapper). -/
theorem devfs_root_resize_is_directory :
    UInode.uresize w0 .devRoot 0 = .error .IsDirectory ∧
    MountedNode.resize w0 ⟨.devRoot, 0⟩ 0 = .error .IsDirectory ∧
    FsError.IsDirectory ≠ FsError.NotFile := by
  decide

/-- C4, counterexample: on a directory where the file (id 2) is already
hard-linked under both `"a"` and `"b"`, `move_("a", root, "b")` fails with
`EntryExists` and afterwards the entry sits under *both* names — not
"under exactly one of the two names" as the claim states (the tree is
simply unchanged). -/
theorem move_error_entry_under_both_names :
    (Ramdisk.move_ wDup 1 "a" (.ram 1) "b").1 = .error .EntryExists ∧
    (getNode (Ramdisk.move_ wDup 1 "a" (.ram 1) "b").2 1).children.lookup "a"
      = some 2 ∧
    (getNode (Ramdisk.move_ wDup 1 "a" (.ram 1) "b").2 1).children.lookup "b"
      = some 2 ∧
    ("a" : String) ≠ "b" := by
  decide

/-- C6, counterexample: on a file whose content (two bytes) is longer than
the data being written (one byte), `write_at(0, data)` returns
`Ok(data.len())` but the subsequent `read_at(0, buf)` with
`buf.len() ≥ data.len()` returns the full content length 2, not
`data.len() = 1` as the claim states. -/
theorem write_read_count_mismatch :
    (getNode wOver 2).metadata.type_ = FileType.File ∧
    (getNode wOver 2).content = [0, 0] ∧
    Ramdisk.write_at wOver 2 0 [1] = .ok (1, wOverPost) ∧
    Ramdisk.read_at wOverPost 2 0 [7, 7] = .ok (2, [1, 0]) ∧
    List.length [1] ≤ List.length [7, 7] ∧
    (2 : Nat) ≠ 1 := by
  decide

/-- C3 (amended): `resize` on a directory fails without touching it —
with `NotFile` on ramdisk directories (directly or through a
`MountedNode`), but with `IsDirectory` on the DevFS root (directly or
through a `MountedNode`). -/
theorem resize_on_directories (w : World) (id fsid new_len : Nat)
    (hdir : (getNode w id).metadata.type_ = FileType.Directory) :
    Ramdisk.resize w id new_len = .error .NotFile ∧
    UInode.uresize w .devRoot new_len = .error .IsDirectory ∧
    MountedNode.resize w ⟨.ram id, fsid⟩ new_len = .error .NotFile ∧
    MountedNode.resize w ⟨.devRoot, fsid⟩ new_len = .error .IsDirectory := by
  have h1 : Ramdisk.resize w id new_len = .error .NotFile := by
    simp [Ramdisk.resize, hdir]
  exact ⟨h1, rfl, h1, rfl⟩

/-- Witness for `resize_on_directories`: the root of a fresh ramdisk. -/
theorem resize_on_directories_witness :
    (getNode wRd 1).metadata.type_ = FileType.Directory ∧
    Ramdisk.resize wRd 1 5 = .error .NotFile ∧
    MountedNode.resize wRd ⟨.devRoot, 0⟩ 5 = .error .IsDirectory :=
  ⟨by decide, (resize_on_directories wRd 1 0 5 (by decide)).1,
    (resize_on_directories wRd 1 0 5 (by decide)).2.2.2⟩

/-- C9: `move_` on a directory entry always fails with `IsDirectory`
(the underlying `link` rejects directory hard-links) and returns with the
tree unchanged, for any target directory. -/
theorem move_directory_fails (w : World) (id tid fid : Nat)
    (old_name new_name : String)
    (hfind : Ramdisk.find w id old_name = .ok fid)
    (hfdir : (getNode w fid).metadata.type_ = FileType.Directory)
    (htdir : (getNode w tid).metadata.type_ = FileType.Directory) :
    Ramdisk.move_ w id old_name (.ram tid) new_name
      = (.error .IsDirectory, w) := by
  have hl : Ramdisk.link w tid new_name (.ram fid) = .error .IsDirectory := by
    simp [Ramdisk.link, htdir, hfdir]
  simp [Ramdisk.move_, hfind, UInode.ulink, hl]

/-- Witness for `move_directory_fails`: moving directory `d` of the
fixture into directory `t`. -/
theorem move_directory_fails_witness :
    Ramdisk.find wDirs 1 "d" = .ok 2 ∧
    (getNode wDirs 2).metadata.type_ = FileType.Directory ∧
    Ramdisk.move_ wDirs 1 "d" (.ram 3) "d2" = (.error .IsDirectory, wDirs) :=
  ⟨by decide, by decide,
    move_directory_fails wDirs 1 3 2 "d" "d2" (by decide) (by decide) (by decide)⟩

/-- C10: `create` on a directory that already has an entry under `name`
silently replaces it: it succeeds, the id it returns is the fresh counter
value (distinct from the replaced child), `find(name)` afterwards returns
the new node, and the replaced child's link count is not decremented. -/
theorem create_replaces_duplicate (w : World) (id oldId : Nat)
    (name : String) (type_ : FileType) (perms : Nat)
    (hdir : (getNode w id).metadata.type_ = FileType.Directory)
    (hold : (getNode w id).children.lookup name = some oldId)
    (hfresh : oldId < w.nextInode)
    (hidf : id < w.nextInode)
    (hn1 : name ≠ ".") (hn2 : name ≠ "..") :
    (∃ p, Ramdisk.create w id name type_ perms = .ok p) ∧
    (∀ nid w', Ramdisk.create w id name type_ perms = .ok (nid, w') →
      nid = w.nextInode ∧
      nid ≠ oldId ∧
      Ramdisk.find w' id name = .ok nid ∧
      (getNode w' nid).metadata.inode = nid ∧
      (getNode w' id).children.lookup name = some nid ∧
      (getNode w' oldId).metadata.links = (getNode w oldId).metadata.links) := by
  constructor
  · rcases hc : Ramdisk.create w id name type_ perms with e | p
    · exact absurd hc (by simp [Ramdisk.create, hdir])
    · exact ⟨p, rfl⟩
  · intro nid w' hc
    simp only [Ramdisk.create, hdir] at hc
    rw [if_neg (by simp)] at hc
    obtain ⟨h1, h2⟩ : w.nextInode = nid ∧ _ = w' := by
      constructor <;> injection hc with hp <;> injection hp
    subst h1
    subst h2
    have hne : id ≠ w.nextInode := Nat.ne_of_lt hidf
    have hoe : oldId ≠ w.nextInode := Nat.ne_of_lt hfresh
    have hbump : ∀ x, getNode { w with nextInode := w.nextInode + 1 } x
        = getNode w x := fun _ => rfl
    refine ⟨rfl, fun e => hoe e.symm, ?_, ?_, ?_, ?_⟩
    · rw [Ramdisk.find]
      simp only [getNode_setNode_self, hdir]
      rw [if_neg (by simp), if_neg (by simpa using hn1), if_neg (by simpa using hn2),
        lookup_mapInsert_self]
    · rw [getNode_setNode_ne _ _ _ _ (fun e => hne e.symm), getNode_setNode_self]
    · simp only [getNode_setNode_self]
      exact lookup_mapInsert_self _ _ _
    · by_cases hoi : oldId = id
      · subst hoi
        rw [getNode_setNode_self]
      · rw [getNode_setNode_ne _ _ _ _ hoi, getNode_setNode_ne _ _ _ _ hoe,
          hbump]

/-- Witness for `create_replaces_duplicate`: re-creating `"x"` over the
link fixture (old child id 2, fresh id 4). -/
theorem create_replaces_duplicate_witness :
    Ramdisk.create wLink 1 "x" FileType.File 438 = .ok (4, wLinkPost) ∧
    Ramdisk.find wLinkPost 1 "x" = .ok 4 ∧
    (getNode wLinkPost 4).metadata.inode = 4 ∧
    (getNode wLinkPost 1).children.lookup "x" = some 4 ∧
    (getNode wLinkPost 2).metadata.links = (getNode wLink 2).metadata.links := by
  have h := (create_replaces_duplicate wLink 1 2 "x" FileType.File 438
    (by decide) (by decide) (by decide) (by decide) (by decide) (by decide)).2
    4 wLinkPost (by decide)
  exact ⟨by decide, h.2.2.1, h.2.2.2.1, h.2.2.2.2.1, h.2.2.2.2.2⟩

/-- C7 (amended): on a ramdisk directory, `create` of a duplicate name
succeeds, while `link` of a non-directory ramdisk node under an occupied
name fails with `EntryExists` before any mutation (a *directory* `other`
fails with `IsDirectory` first — see the counterexample); a successful
`link` of a free name inserts `other` and increments its link count by
one. -/
theorem create_permits_duplicate_link_rejects (w : World) (id oid cid : Nat)
    (name free_name : String) (type_ : FileType) (perms : Nat)
    (hdir : (getNode w id).metadata.type_ = FileType.Directory)
    (hex : (getNode w id).children.lookup name = some cid)
    (hnd : (getNode w oid).metadata.type_ ≠ FileType.Directory)
    (hfree : (getNode w id).children.lookup free_name = none) :
    (∃ p, Ramdisk.create w id name type_ perms = .ok p) ∧
    Ramdisk.link w id name (.ram oid) = .error .EntryExists ∧
    (∃ w2, Ramdisk.link w id free_name (.ram oid) = .ok w2) ∧
    (∀ w2, Ramdisk.link w id free_name (.ram oid) = .ok w2 →
      (getNode w2 id).children.lookup free_name = some oid ∧
      (getNode w2 oid).metadata.links = (getNode w oid).metadata.links + 1) := by
  have hne : oid ≠ id := by
    intro e; rw [e, hdir] at hnd; exact hnd rfl
  refine ⟨?_, ?_, ?_, ?_⟩
  · rcases hc : Ramdisk.create w id name type_ perms with e | p
    · exact absurd hc (by simp [Ramdisk.create, hdir])
    · exact ⟨p, rfl⟩
  · simp [Ramdisk.link, hdir, hnd, hex]
  · rcases hc : Ramdisk.link w id free_name (.ram oid) with e | w2
    · exact absurd hc (by simp [Ramdisk.link, hdir, hnd, hfree])
    · exact ⟨w2, rfl⟩
  · intro w2 hc
    simp only [Ramdisk.link, hdir] at hc
    rw [if_neg (by simp), if_neg hnd, if_neg (by simp [hfree])] at hc
    obtain rfl : _ = w2 := by injection hc
    constructor
    · rw [getNode_setNode_ne _ _ _ _ hne.symm, getNode_setNode_self]
      exact lookup_mapInsert_self _ _ _
    · rw [getNode_setNode_self, getNode_setNode_ne _ _ _ _ hne]

/-- Witness for `create_permits_duplicate_link_rejects` on the link
fixture: name `"x"` is occupied by the file (id 2), `"y"` is free. -/
theorem create_permits_duplicate_link_rejects_witness :
    Ramdisk.link wLink 1 "x" (.ram 2) = .error .EntryExists ∧
    Ramdisk.link wLink 1 "y" (.ram 2) = .ok wLinkY ∧
    (getNode wLinkY 1).children.lookup "y" = some 2 ∧
    (getNode wLinkY 2).metadata.links = (getNode wLink 2).metadata.links + 1 := by
  have h := create_permits_duplicate_link_rejects wLink 1 2 2 "x" "y"
    FileType.File 438 (by decide) (by decide) (by decide) (by decide)
  have h4 := h.2.2.2 wLinkY (by decide)
  exact ⟨h.2.1, by decide, h4.1, h4.2⟩

/-- The `list` collection loop returns exactly the entries `get_entry`
serves from the starting index up to its first `EntryNotFound`. -/
theorem listCollect_of_entries (w : World) (u : UInode) :
    ∀ (names : List String) (k fuel : Nat),
      (∀ j, UInode.uget_entry w u (k + j) =
        (match names.get? j with
         | some s => .ok s
         | none => .error .EntryNotFound)) →
      names.length < fuel → listCollect w u k fuel = names := by
  intro names
  induction names with
  | nil =>
    intro k fuel h hf
    cases fuel with
    | zero => omega
    | succ f =>
      have h0 := h 0
      simp only [List.get?] at h0
      rw [listCollect, Nat.add_zero] at *
      rw [h0]
  | cons n ns ih =>
    intro k fuel h hf
    cases fuel with
    | zero => omega
    | succ f =>
      have h0 := h 0
      simp only [List.get?] at h0
      rw [Nat.add_zero] at h0
      rw [listCollect, h0]
      have hrec := ih (k + 1) f (fun j => by
        have := h (j + 1)
        simpa [Nat.add_assoc, Nat.add_comm 1 j] using this)
        (by simpa using Nat.lt_of_succ_lt_succ hf)
      rw [hrec]

/-- C8: for ramdisk directories and for the DevFS root, `get_entry`
serves `"."` at index 0 and `".."` at index 1, fails with `EntryNotFound`
at every index past `1 +` the number of children, and `list()` therefore
yields `"."`, `".."` and then exactly the children's names (in map
order). -/
theorem get_entry_dot_dotdot_children (w : World) (id : Nat)
    (hdir : (getNode w id).metadata.type_ = FileType.Directory) :
    Ramdisk.get_entry w id 0 = .ok "." ∧
    Ramdisk.get_entry w id 1 = .ok ".." ∧
    (∀ i, (getNode w id).children.length + 2 ≤ i →
      Ramdisk.get_entry w id i = .error .EntryNotFound) ∧
    (∀ fuel, (getNode w id).children.length + 3 ≤ fuel →
      ulist w (.ram id) fuel
        = .ok ("." :: ".." :: (getNode w id).children.map Prod.fst)) ∧
    DevFSRootINode.get_entry w 0 = .ok "." ∧
    DevFSRootINode.get_entry w 1 = .ok ".." ∧
    (∀ i, w.devices.length + 2 ≤ i →
      DevFSRootINode.get_entry w i = .error .EntryNotFound) ∧
    (∀ fuel, w.devices.length + 3 ≤ fuel →
      ulist w .devRoot fuel = .ok ("." :: ".." :: w.devices.map Prod.fst)) := by
  have hram : ∀ j, UInode.uget_entry w (.ram id) j =
      (match ("." :: ".." :: (getNode w id).children.map Prod.fst).get? j with
       | some s => .ok s
       | none => .error .EntryNotFound) := by
    intro j
    match j with
    | 0 => simp [UInode.uget_entry, Ramdisk.get_entry, hdir]
    | 1 => simp [UInode.uget_entry, Ramdisk.get_entry, hdir]
    | j + 2 =>
      simp only [UInode.uget_entry, Ramdisk.get_entry, hdir, List.get?]
      rw [if_neg (by simp)]
      simp [Nat.add_sub_cancel]
  have hdev : ∀ j, UInode.uget_entry w .devRoot j =
      (match ("." :: ".." :: w.devices.map Prod.fst).get? j with
       | some s => .ok s
       | none => .error .EntryNotFound) := by
    intro j
    match j with
    | 0 => simp [UInode.uget_entry, DevFSRootINode.get_entry]
    | 1 => simp [UInode.uget_entry, DevFSRootINode.get_entry]
    | j + 2 =>
      simp only [UInode.uget_entry, DevFSRootINode.get_entry, List.get?]
      simp [Nat.add_sub_cancel]
  refine ⟨?_, ?_, ?_, ?_, rfl, rfl, ?_, ?_⟩
  · simpa [UInode.uget_entry] using hram 0
  · simpa [UInode.uget_entry] using hram 1
  · intro i hi
    have := hram i
    obtain ⟨j, rfl⟩ : ∃ j, i = j + 2 := ⟨i - 2, by omega⟩
    rw [show ((UInode.uget_entry w (.ram id) (j + 2)) = Ramdisk.get_entry w id (j + 2)) from rfl] at this
    rw [this]
    have hnone : (getNode w id).children[j]? = none := by
      rw [List.getElem?_eq_none_iff]
      omega
    simp [List.get?, hnone]
  · intro fuel hf
    rw [ulist, if_neg (by simp [UInode.umetadata, Ramdisk.metadata, hdir])]
    rw [listCollect_of_entries w (.ram id)
      ("." :: ".." :: (getNode w id).children.map Prod.fst) 0 fuel
      (fun j => by simpa using hram j) (by simp; omega)]
  · intro i hi
    have := hdev i
    obtain ⟨j, rfl⟩ : ∃ j, i = j + 2 := ⟨i - 2, by omega⟩
    rw [show ((UInode.uget_entry w .devRoot (j + 2)) = DevFSRootINode.get_entry w (j + 2)) from rfl] at this
    rw [this]
    have hnone : w.devices[j]? = none := by
      rw [List.getElem?_eq_none_iff]
      omega
    simp [List.get?, hnone]
  · intro fuel hf
    rw [ulist, if_neg (by simp [UInode.umetadata, DevFSRootINode.metadata])]
    rw [listCollect_of_entries w .devRoot
      ("." :: ".." :: w.devices.map Prod.fst) 0 fuel
      (fun j => by simpa using hdev j) (by simp; omega)]

/-- Witness for `get_entry_dot_dotdot_children`: the link fixture's root
(children `d`, `x`) and the DevFS fixture (devices `null`, `zero`). -/
theorem get_entry_dot_dotdot_children_witness :
    Ramdisk.get_entry wBoth 1 0 = .ok "." ∧
    Ramdisk.get_entry wBoth 1 1 = .ok ".." ∧
    ulist wBoth (.ram 1) 9 = .ok [".", "..", "d", "x"] ∧
    ulist wBoth .devRoot 9 = .ok [".", "..", "null", "zero"] := by
  have h1 := get_entry_dot_dotdot_children wBoth 1 (by decide)
  refine ⟨h1.1, h1.2.1, ?_, ?_⟩
  · have := h1.2.2.2.1 9 (by decide)
    rw [this]
    decide
  · have := h1.2.2.2.2.2.2.2 9 (by decide)
    rw [this]
    decide

/-- C6 (amended): for a ramdisk file whose current content is no longer
than `data`, `write_at(0, data)` returns `Ok(data.len())` leaving the
content exactly `data`, and `read_at(0, buf)` with `buf.len() ≥
data.len()` then returns `Ok(data.len())` with `buf[..data.len()] ==
data`; moreover (for any file) reading at an offset at or past the
content length returns `Ok(0)` leaving the buffer untouched, and writing
at an offset past the content length zero-fills the gap. -/
theorem write_read_roundtrip (w : World) (id : Nat) (data buf : List Nat)
    (hfile : (getNode w id).metadata.type_ = FileType.File)
    (hshort : (getNode w id).content.length ≤ data.length)
    (hbuf : data.length ≤ buf.length) :
    Ramdisk.write_at w id 0 data
      = .ok (data.length, setNode w id { getNode w id with content := data }) ∧
    Ramdisk.read_at (setNode w id { getNode w id with content := data }) id 0 buf
      = .ok (data.length, data ++ buf.drop data.length) ∧
    (data ++ buf.drop data.length).take data.length = data ∧
    (∀ off buf2, (getNode w id).content.length ≤ off →
      Ramdisk.read_at w id off buf2 = .ok (0, buf2)) ∧
    (∀ off data2, (getNode w id).content.length ≤ off →
      Ramdisk.write_at w id off data2 = .ok (data2.length,
        setNode w id { getNode w id with
          content := ((getNode w id).content ++
            List.replicate (off - (getNode w id).content.length) 0 ++ data2) })) := by
  have hnd : ¬ (getNode w id).metadata.type_ = FileType.Directory := by
    rw [hfile]; simp
  refine ⟨?_, ?_, ?_, ?_, ?_⟩
  · rw [Ramdisk.write_at]
    simp only [if_neg hnd, Nat.zero_add, List.take_zero, List.nil_append]
    have hgrown : (if (getNode w id).content.length < data.length then
        (getNode w id).content ++
          List.replicate (data.length - (getNode w id).content.length) 0
        else (getNode w id).content).length = data.length ∧
        ((if (getNode w id).content.length < data.length then
        (getNode w id).content ++
          List.replicate (data.length - (getNode w id).content.length) 0
        else (getNode w id).content)).drop data.length = [] := by
      by_cases hlt : (getNode w id).content.length < data.length
      · rw [if_pos hlt]
        constructor
        · simp [List.length_append, List.length_replicate]; omega
        · apply List.drop_eq_nil_of_le
          simp [List.length_append, List.length_replicate]; omega
      · have heq : (getNode w id).content.length = data.length := by omega
        rw [if_neg hlt]
        exact ⟨heq, List.drop_eq_nil_of_le (by omega)⟩
    rw [hgrown.2, List.append_nil]
  · rw [Ramdisk.read_at]
    simp only [getNode_setNode_self, if_neg hnd]
    have h1 : min data.length 0 = 0 := Nat.min_zero _
    have h2 : min data.length (0 + buf.length) = data.length := by
      simpa using Nat.min_eq_left hbuf
    rw [h1, h2, List.drop_zero, List.take_length]
  · rw [List.take_append_eq_append_take, List.take_length, Nat.sub_self,
      List.take_zero, List.append_nil]
  · intro off buf2 hoff
    rw [Ramdisk.read_at]
    simp only [if_neg hnd]
    have h1 : min (getNode w id).content.length off
        = (getNode w id).content.length := Nat.min_eq_left hoff
    have h2 : min (getNode w id).content.length (off + buf2.length)
        = (getNode w id).content.length := Nat.min_eq_left (by omega)
    rw [h1, h2, List.take_length, List.drop_eq_nil_of_le (Nat.le_refl _)]
    simp
  · intro off data2 hoff
    rw [Ramdisk.write_at]
    simp only [if_neg hnd]
    by_cases hlt : (getNode w id).content.length < off + data2.length
    · rw [if_pos hlt]
      have htake : ((getNode w id).content ++
          List.replicate (off + data2.length - (getNode w id).content.length) 0).take off
          = (getNode w id).content ++
            List.replicate (off - (getNode w id).content.length) 0 := by
        rw [List.take_append_eq_append_take,
          List.take_of_length_le hoff, List.take_replicate]
        congr 1
        congr 1
        omega
      have hdrop : ((getNode w id).content ++
          List.replicate (off + data2.length - (getNode w id).content.length) 0).drop
            (off + data2.length) = [] := by
        apply List.drop_eq_nil_of_le
        simp [List.length_append, List.length_replicate]; omega
      rw [htake, hdrop, List.append_nil, List.append_assoc]
    · have heq : off = (getNode w id).content.length ∧ data2.length = 0 := by omega
      obtain ⟨h1, h2⟩ := heq
      obtain rfl : data2 = [] := List.length_eq_zero.mp h2
      rw [if_neg hlt]
      subst h1
      rw [List.take_of_length_le (Nat.le_refl _),
        List.drop_eq_nil_of_le (by omega), Nat.sub_self]
      simp

/-- Witness for `write_read_roundtrip`: writing three bytes over the
one-byte... over the empty file `f` of the overwrite fixture would not be
possible, so the fixture's file (content two zero bytes) is overwritten
with three bytes. -/
theorem write_read_roundtrip_witness :
    Ramdisk.write_at wOver 2 0 [5, 6, 7]
      = .ok (3, setNode wOver 2 { getNode wOver 2 with content := [5, 6, 7] }) ∧
    Ramdisk.read_at (setNode wOver 2 { getNode wOver 2 with content := [5, 6, 7] })
      2 0 [9, 9, 9, 9] = .ok (3, [5, 6, 7, 9]) ∧
    Ramdisk.read_at wOver 2 5 [9, 9] = .ok (0, [9, 9]) := by
  have h := write_read_roundtrip wOver 2 [5, 6, 7] [9, 9, 9, 9]
    (by decide) (by decide) (by decide)
  refine ⟨h.1, ?_, ?_⟩
  · have := h.2.1
    rw [this]
    decide
  · have := h.2.2.2.1 5 [9, 9] (by decide)
    rw [this]

/-- C5: mount transparency.  In any world containing a `MountFS` `m1`
wrapping a ramdisk with root `r` (a directory with child `"tmp"` = `t`),
and a `MountFS` `m2` wrapping a second ramdisk with root `r2`, mounted at
`t` (mount-point entry `t ↦ m2`, `self_mountpoint` of `m2` = the `tmp`
node): `R.find("tmp")` lands on `fs2`'s root (inode id `r2`),
`find(".")` there stays, `find("..")` there climbs back out to `R`
(inode id `r`), and `find("..")` at the top-level root `R` returns `R`
itself. -/
theorem mount_transparency (w : World) (r t r2 m1 m2 : Nat)
    (hfs2 : (getMount w m2).inner = .ramFs r2)
    (hsm1 : (getMount w m1).self_mountpoint = none)
    (hsm2 : (getMount w m2).self_mountpoint = some ⟨.ram t, m1⟩)
    (hmpR : (getMount w m1).mountpoints.lookup r = none)
    (hmpT : (getMount w m1).mountpoints.lookup t = some m2)
    (hrdir : (getNode w r).metadata.type_ = FileType.Directory)
    (hrid : (getNode w r).metadata.inode = r)
    (hrfs : (getNode w r).filesystem = r)
    (hrch : (getNode w r).children.lookup "tmp" = some t)
    (htdir : (getNode w t).metadata.type_ = FileType.Directory)
    (htid : (getNode w t).metadata.inode = t)
    (htfs : (getNode w t).filesystem = r)
    (htpar : (getNode w t).parent_ref = r)
    (hr2dir : (getNode w r2).metadata.type_ = FileType.Directory)
    (hr2id : (getNode w r2).metadata.inode = r2)
    (hr2fs : (getNode w r2).filesystem = r2) :
    MountedNode.find w ⟨.ram r, m1⟩ "tmp" 1 = some (.ok ⟨.ram r2, m2⟩) ∧
    MountedNode.find w ⟨.ram r2, m2⟩ "." 1 = some (.ok ⟨.ram r2, m2⟩) ∧
    (UInode.umetadata w (.ram r2)).inode = r2 ∧
    MountedNode.find w ⟨.ram r2, m2⟩ ".." 2 = some (.ok ⟨.ram r, m1⟩) ∧
    (UInode.umetadata w (.ram r)).inode = r ∧
    MountedNode.find w ⟨.ram r, m1⟩ ".." 1 = some (.ok ⟨.ram r, m1⟩) := by
  have hrt : r ≠ t := by
    intro e
    rw [e, hmpT] at hmpR
    cases hmpR
  have hTr : (UInode.umetadata w (.ram r)).type_ = FileType.Directory := hrdir
  have hTt : (UInode.umetadata w (.ram t)).type_ = FileType.Directory := htdir
  have hTr2 : (UInode.umetadata w (.ram r2)).type_ = FileType.Directory := hr2dir
  have hIr : (UInode.umetadata w (.ram r)).inode = r := hrid
  have hIt : (UInode.umetadata w (.ram t)).inode = t := htid
  have hIr2 : (UInode.umetadata w (.ram r2)).inode = r2 := hr2id
  have hov1 : MountedNode.overlaid_inode w ⟨.ram r, m1⟩ = ⟨.ram r, m1⟩ := by
    unfold MountedNode.overlaid_inode
    rw [hIr, hmpR]
  have hov2 : MountedNode.overlaid_inode w ⟨.ram t, m1⟩ = ⟨.ram r2, m2⟩ := by
    unfold MountedNode.overlaid_inode MountFS.root
    simp only [hIt, hmpT, hfs2]
  have hrootR : MountedNode.is_root w ⟨.ram r, m1⟩ = true := by
    unfold MountedNode.is_root UInode.uroot
    simp only [hrfs, hIr]
    simp
  have hrootT : MountedNode.is_root w ⟨.ram t, m1⟩ = false := by
    unfold MountedNode.is_root UInode.uroot
    simp only [htfs, hIr, hIt]
    simp [hrt]
  have hrootR2 : MountedNode.is_root w ⟨.ram r2, m2⟩ = true := by
    unfold MountedNode.is_root UInode.uroot
    simp only [hr2fs, hIr2]
    simp
  have hfindtmp : Ramdisk.find w r "tmp" = .ok t := by
    unfold Ramdisk.find
    rw [if_neg (by rw [hrdir]; simp), if_neg (by decide), if_neg (by decide), hrch]
  have hfindpar : Ramdisk.find w t ".." = .ok r := by
    unfold Ramdisk.find
    rw [if_neg (by rw [htdir]; simp), if_neg (by decide), if_pos rfl, htpar]
  refine ⟨?_, ?_, hIr2, ?_, hIr, ?_⟩
  · rw [MountedNode.find]
    rw [if_neg (by rw [hTr]; simp), if_neg (by decide), if_neg (by decide), hov1]
    show (match UInode.ufind w (UInode.ram r) "tmp" with
      | Except.error e => some (Except.error e)
      | Except.ok u => some (Except.ok (MountedNode.overlaid_inode w ⟨u, m1⟩))) = _
    unfold UInode.ufind
    simp only [hfindtmp, Except.map]
    rw [hov2]
  · rw [MountedNode.find]
    rw [if_neg (by rw [hTr2]; simp), if_pos rfl]
  · rw [show (2 : Nat) = 1 + 1 from rfl, MountedNode.find]
    rw [if_neg (by rw [hTr2]; simp), if_neg (by decide), if_pos rfl, hrootR2]
    show (match (getMount w m2).self_mountpoint with
      | some p => MountedNode.find w p ".." 1
      | none => some (.ok ⟨.ram r2, m2⟩)) = _
    rw [hsm2]
    show MountedNode.find w ⟨.ram t, m1⟩ ".." 1 = _
    rw [MountedNode.find]
    rw [if_neg (by rw [hTt]; simp), if_neg (by decide), if_pos rfl, hrootT]
    show (match UInode.ufind w (UInode.ram t) ".." with
      | Except.error e => some (Except.error e)
      | Except.ok u => some (Except.ok (⟨u, m1⟩ : MountedNode))) = _
    unfold UInode.ufind
    simp only [hfindpar, Except.map]
  · rw [MountedNode.find]
    rw [if_neg (by rw [hTr]; simp), if_neg (by decide), if_pos rfl, hrootR]
    rw [hsm1]
    simp

/-- Witness for `mount_transparency`: the mount fixture, with
`r = 1`, `t = 3`, `r2 = 2`, `m1 = 0`, `m2 = 1`. -/
theorem mount_transparency_witness :
    MountedNode.find wMnt ⟨.ram 1, 0⟩ "tmp" 1 = some (.ok ⟨.ram 2, 1⟩) ∧
    MountedNode.find wMnt ⟨.ram 2, 1⟩ "." 1 = some (.ok ⟨.ram 2, 1⟩) ∧
    MountedNode.find wMnt ⟨.ram 2, 1⟩ ".." 2 = some (.ok ⟨.ram 1, 0⟩) ∧
    MountedNode.find wMnt ⟨.ram 1, 0⟩ ".." 1 = some (.ok ⟨.ram 1, 0⟩) := by
  have h := mount_transparency wMnt 1 3 2 0 1 (by decide) (by decide)
    (by decide) (by decide) (by decide) (by decide) (by decide) (by decide)
    (by decide) (by decide) (by decide) (by decide) (by decide) (by decide)
    (by decide) (by decide)
  exact ⟨h.1, h.2.1, h.2.2.2.1, h.2.2.2.2.2⟩

/-- After a successful `link(name, .ram fid)` on a ramdisk directory:
the preconditions that must have held, and how the resulting world
relates to the old one. -/
theorem link_ok_facts (w : World) (tid fid : Nat) (name : String)
    (w1 : World) (h : Ramdisk.link w tid name (.ram fid) = .ok w1) :
    (getNode w tid).metadata.type_ = FileType.Directory ∧
    ¬ (getNode w fid).metadata.type_ = FileType.Directory ∧
    (getNode w tid).children.lookup name = none ∧
    (getNode w1 fid).children = (getNode w fid).children ∧
    (∀ x, x ≠ fid → x ≠ tid → getNode w1 x = getNode w x) ∧
    (getNode w1 tid).metadata.type_ = FileType.Directory ∧
    (getNode w1 tid).children = mapInsert name fid (getNode w tid).children := by
  simp only [Ramdisk.link] at h
  by_cases hA : (getNode w tid).metadata.type_ ≠ FileType.Directory
  · rw [if_pos hA] at h
    exact Except.noConfusion h
  rw [if_neg hA] at h
  by_cases hB : (getNode w fid).metadata.type_ = FileType.Directory
  · rw [if_pos hB] at h
    exact Except.noConfusion h
  rw [if_neg hB] at h
  by_cases hC : ((getNode w tid).children.lookup name).isSome
  · rw [if_pos hC] at h
    exact Except.noConfusion h
  rw [if_neg hC] at h
  have htdir := not_not.mp hA
  have hft : fid ≠ tid := fun he => hB (he ▸ htdir)
  obtain rfl : _ = w1 := by injection h
  refine ⟨htdir, hB, Option.not_isSome_iff_eq_none.mp hC, ?_, ?_, ?_, ?_⟩
  · rw [getNode_setNode_self]
    show (getNode (setNode w tid _) fid).children = _
    rw [getNode_setNode_ne _ _ _ _ hft]
  · intro x hxf hxt
    rw [getNode_setNode_ne _ _ _ _ hxf, getNode_setNode_ne _ _ _ _ hxt]
  · rw [getNode_setNode_ne _ _ _ _ hft.symm, getNode_setNode_self]
    exact htdir
  · rw [getNode_setNode_ne _ _ _ _ hft.symm, getNode_setNode_self]

/-- C4 (amended): in the sequential model `move_` is atomic on error: in
any structurally well-formed world, whenever it returns an error the tree
is returned exactly unchanged (so in particular the entry is present
under exactly one of the two names iff it was so before; the rollback
branches that mutate before erroring are unreachable without concurrent
interference, because after a successful link the source unlink cannot
fail). -/
theorem move_atomic_on_error (w : World) (id : Nat)
    (old_name new_name : String) (target : UInode) (e : FsError)
    (hwf : wfb w = true)
    (herr : (Ramdisk.move_ w id old_name target new_name).1 = .error e) :
    (Ramdisk.move_ w id old_name target new_name).2 = w := by
  rcases target with tid | _ | b
  case devRoot =>
    rcases hf : Ramdisk.find w id old_name with ef | fid
    · simp only [Ramdisk.move_, hf]
    · simp only [Ramdisk.move_, hf, UInode.ulink]
  case zeroNull =>
    rcases hf : Ramdisk.find w id old_name with ef | fid
    · simp only [Ramdisk.move_, hf]
    · simp only [Ramdisk.move_, hf, UInode.ulink]
  case ram =>
  rcases hf : Ramdisk.find w id old_name with ef | fid
  · simp only [Ramdisk.move_, hf]
  rcases hl : Ramdisk.link w tid new_name (.ram fid) with el | w1
  · simp only [Ramdisk.move_, hf, UInode.ulink, hl]
  exfalso
  obtain ⟨htdir, hB, hC, hfch, hother, htdir1, htch⟩ :=
    link_ok_facts w tid fid new_name w1 hl
  have hdir : (getNode w id).metadata.type_ = FileType.Directory := by
    by_contra hnd
    rw [Ramdisk.find, if_pos hnd] at hf
    exact Except.noConfusion hf
  have hidp : w.nodes.lookup id = some (getNode w id) := by
    rcases hq : w.nodes.lookup id with _ | n
    · exfalso
      rw [getNode, hq] at hdir
      exact absurd hdir (by decide)
    · rw [getNode, hq]
      rfl
  have hfid_ne_id : fid ≠ id := fun he => hB (he ▸ hdir)
  have hfid_ne_tid : fid ≠ tid := fun he => hB (he ▸ htdir)
  have hfcopy := hf
  rw [Ramdisk.find, if_neg (by rw [hdir]; simp)] at hfcopy
  by_cases hdot : old_name = "."
  · rw [if_pos hdot] at hfcopy
    obtain rfl : id = fid := by injection hfcopy
    exact hB hdir
  rw [if_neg hdot] at hfcopy
  by_cases hdotdot : old_name = ".."
  · rw [if_pos hdotdot] at hfcopy
    have hpar : (getNode w id).parent_ref = fid := by injection hfcopy
    obtain ⟨_, p, hp, hpdir⟩ := wfb_spec hwf hidp
    apply hB
    rw [← hpar, getNode, hp]
    exact hpdir
  rw [if_neg hdotdot] at hfcopy
  have hch : (getNode w id).children.lookup old_name = some fid := by
    rcases hq : (getNode w id).children.lookup old_name with _ | cid
    · rw [hq] at hfcopy
      exact Except.noConfusion hfcopy
    · rw [hq] at hfcopy
      obtain rfl : cid = fid := by injection hfcopy
      rfl
  have hw1dir : (getNode w1 id).metadata.type_ = FileType.Directory := by
    by_cases h1 : id = tid
    · rw [h1]
      exact htdir1
    · rw [hother id hfid_ne_id.symm h1]
      exact hdir
  have hw1ch : (getNode w1 id).children.lookup old_name = some fid := by
    by_cases h1 : id = tid
    · have hnn : old_name ≠ new_name := by
        intro he
        rw [← h1, ← he, hch] at hC
        exact Option.noConfusion hC
      rw [h1, htch, lookup_mapInsert_ne _ _ _ _ hnn, ← h1]
      exact hch
    · rw [hother id hfid_ne_id.symm h1]
      exact hch
  have hw1fidch : (getNode w1 fid).children = [] := by
    rw [hfch]
    rcases hq : w.nodes.lookup fid with _ | n
    · rw [getNode, hq]
      rfl
    · have hspec := (wfb_spec hwf hq).1
      rw [getNode, hq]
      rcases hspec with hd | hc
      · exfalso
        apply hB
        rw [getNode, hq]
        exact hd
      · exact hc
  rcases hu : Ramdisk.unlink w1 id old_name with eu | w3
  · simp only [Ramdisk.unlink] at hu
    rw [if_neg (show ¬ (getNode w1 id).metadata.type_ ≠ FileType.Directory by
        rw [hw1dir]; simp),
      if_neg (show ¬(old_name = "." ∨ old_name = "..") by simp [hdot, hdotdot]),
      hw1ch] at hu
    dsimp only at hu
    rw [if_neg (show ¬((getNode w1 fid).children ≠ []) by simp [hw1fidch])] at hu
    exact Except.noConfusion hu
  · simp only [Ramdisk.move_, hf, UInode.ulink, hl, hu] at herr
    exact Except.noConfusion herr

/-- Witness for `move_atomic_on_error`: on the hard-link fixture the move
fails with `EntryExists` and the returned state is the original world. -/
theorem move_atomic_on_error_witness :
    wfb wDup = true ∧
    (Ramdisk.move_ wDup 1 "a" (.ram 1) "b").1 = .error .EntryExists ∧
    (Ramdisk.move_ wDup 1 "a" (.ram 1) "b").2 = wDup :=
  ⟨by decide, by decide,
    move_atomic_on_error wDup 1 "a" "b" (.ram 1) .EntryExists (by decide)
      (by decide)⟩

/-- C7, counterexample: `link` checks `IsDirectory` before `EntryExists`,
so linking a *directory* under an already-occupied name fails with
`IsDirectory`, not `EntryExists` as the unqualified claim states. -/
theorem link_existing_name_directory_other :
    (getNode wLink 1).children.lookup "x" = some 2 ∧
    (getNode wLink 3).metadata.type_ = FileType.Directory ∧
    Ramdisk.link wLink 1 "x" (.ram 3) = .error .IsDirectory ∧
    FsError.IsDirectory ≠ FsError.EntryExists := by
  decide

end OsVfs
